import Mathlib

/-!
Shallow embedding of the `cf-cache` package: the `util.ts` helpers
(`chunkArray`, `_getKey`, `serializeHTTPMetadata`, `parseHTTPMetadata`) and
the `CloudflareR2Cache` orchestrator (`match`, `put`, `delete`, `deleteMany`,
`deleteAll`, `keys`).  Store and edge interactions are modelled as explicit
event traces; JavaScript builtins (URL parsing, `Date`, number formatting)
are modelled explicitly where the code relies on them.
-/

namespace CFCache


/-! ### JavaScript number formatting

Models `Number.prototype.toString` (base 10) and `parseInt` as used by the
code: `response.status.toString()`, `object.size.toString()`, the template
literal `max-age=${60 * 60 * 24 * 365}`, and
`parseInt(customMetadata.statusCode)`.  `parseInt` is modelled on all-digit
strings (the only strings the orchestrator ever feeds it, since the stored
`statusCode` is always a rendered decimal numeral). -/

/-- Fuel-bounded most-significant-first decimal digit rendering; fuel `n + 1`
is always sufficient since the argument shrinks by a factor of ten. -/
def toDecAux : Nat → Nat → List Char
  | 0, _ => []
  | fuel + 1, n =>
    if n = 0 then []
    else toDecAux fuel (n / 10) ++ [Nat.digitChar (n % 10)]

/-- Model of `Number.prototype.toString` (base 10) on natural numbers. -/
def jsToString (n : Nat) : String :=
  if n = 0 then "0" else String.mk (toDecAux (n + 1) n)

/-- Decimal value of a digit character list, most significant first. -/
def parseDigits (cs : List Char) : Nat :=
  cs.foldl (fun a c => a * 10 + (c.toNat - 48)) 0

/-- Model of `parseInt` restricted to all-digit strings (the only inputs the
orchestrator produces for it). -/
def jsParseInt (s : String) : Nat :=
  parseDigits s.data

/-! ### JavaScript dates

`new Date(string)` and `Date.prototype.toUTCString` are engine builtins; they
are modelled abstractly.  A `JSDate` with `millis = none` stands for an
Invalid Date object (which is still truthy in JavaScript, hence no `Option`
at the object level). -/

/-- Model of a JavaScript `Date` object; `millis = none` is Invalid Date. -/
structure JSDate where
  millis : Option Int
deriving DecidableEq, Repr

/-- Abstract model of the engine date builtins used by the code:
`new Date(string)` and `Date.prototype.toUTCString`. -/
structure DateModel where
  parse : String → JSDate
  toUTCString : JSDate → String

/-! ### Headers

JavaScript `Headers` normalizes names case-insensitively; the code only ever
touches ten names, so names are modelled as a canonical enumeration and a
`Headers` value as an association list with at most first-match lookup. -/

/-- The header names touched anywhere in the package (six codec fields plus
the four fields `match` computes). -/
inductive HeaderName where
  | cacheControl
  | expires
  | contentType
  | contentDisposition
  | contentEncoding
  | contentLanguage
  | etag
  | contentLength
  | lastModified
  | cdnCacheControl
deriving DecidableEq, Repr, Fintype

/-- Model of a JavaScript `Headers` object restricted to the names the code
touches. -/
abbrev Headersm := List (HeaderName × String)

/-- Model of `Headers.prototype.get`: first entry for the name, else `null`. -/
def hget (h : Headersm) (n : HeaderName) : Option String :=
  (h.find? (fun p => p.1 = n)).map (fun p => p.2)

/-- Model of `Headers.prototype.set`: replace an existing entry in place or
append a new one. -/
def hset (h : Headersm) (n : HeaderName) (v : String) : Headersm :=
  if h.any (fun p => p.1 = n) then
    h.map (fun p => if p.1 = n then (p.1, v) else p)
  else
    h ++ [(n, v)]

/-! ### `chunkArray` (util.ts)

Source: `arr.length > size ? [arr.slice(0, size), ...chunkArray(arr.slice(size), size)] : [arr]`.
The JavaScript recursion diverges for `size = 0`; a fuel bound (always
sufficient for positive `size`, which is all call sites use) makes the Lean
definition total. -/

/-- Fuel-bounded body of `chunkArray`; fuel `arr.length` suffices whenever
`0 < size`. -/
def chunkArrayFuel {α : Type} : Nat → List α → Nat → List (List α)
  | 0, arr, _ => [arr]
  | fuel + 1, arr, size =>
    if arr.length > size then
      arr.take size :: chunkArrayFuel fuel (arr.drop size) size
    else [arr]

/-- Model of `chunkArray` from `util.ts`. -/
def chunkArray {α : Type} (arr : List α) (size : Nat) : List (List α) :=
  chunkArrayFuel arr.length arr size

/-! ### `_getKey` (util.ts)

Source: a `Request` is first converted to `new URL(request.url)`; a `URL`
yields its `pathname`; anything else (a string or `undefined`) is returned
unchanged.  URL parsing is an engine builtin, so a `Request` is modelled as
already carrying the parsed URL of its `url` property. -/

/-- Model of a parsed WHATWG `URL`: only `pathname` is consumed by the code. -/
structure URLm where
  pathname : String
deriving DecidableEq, Repr

/-- Model of the `URL | RequestInfo` union accepted by the cache methods.  A
`Request` carries the parsed `URL` of its `url` property (URL parsing is an
engine builtin). -/
inductive ReqInput where
  | request (url : URLm)
  | url (u : URLm)
  | str (s : String)
deriving DecidableEq, Repr

/-- Model of `_getKey` from `util.ts`; the `none` argument is JavaScript
`undefined`. -/
def _getKey : Option ReqInput → Option String
  | some (.request u) => some u.pathname
  | some (.url u) => some u.pathname
  | some (.str s) => some s
  | none => none

/-- JavaScript falsiness of a `string | undefined` key: `undefined` and the
empty string are falsy (the `if (!key)` guards in `match`/`put`). -/
def jsFalsyKey : Option String → Bool
  | none => true
  | some s => s = ""

/-- JavaScript template-literal rendering of a `string | undefined` value
(`undefined` prints as the string `undefined`). -/
def jsTemplate : Option String → String
  | none => "undefined"
  | some s => s

/-! ### HTTP metadata codec (util.ts) -/

/-- Model of Cloudflare's `R2HTTPMetadata` record. -/
structure R2HTTPMetadata where
  cacheControl : Option String
  cacheExpiry : Option JSDate
  contentType : Option String
  contentDisposition : Option String
  contentEncoding : Option String
  contentLanguage : Option String
deriving DecidableEq, Repr

/-- Model of the JavaScript expression `x || undefined` for
`x : string | null`: the empty string collapses to `undefined`. -/
def orUndefined : Option String → Option String
  | some s => if s = "" then none else some s
  | none => none

/-- Model of `serializeHTTPMetadata` from `util.ts`. -/
def serializeHTTPMetadata (dm : DateModel) (headers : Headersm) :
    R2HTTPMetadata :=
  let expires := hget headers .expires
  { cacheControl := orUndefined (hget headers .cacheControl)
    cacheExpiry :=
      match expires with
      | some s => if s = "" then none else some (dm.parse s)
      | none => none
    contentType := orUndefined (hget headers .contentType)
    contentDisposition := orUndefined (hget headers .contentDisposition)
    contentEncoding := orUndefined (hget headers .contentEncoding)
    contentLanguage := orUndefined (hget headers .contentLanguage) }

/-- Model of the pattern `if (headers.field) result.set(name, headers.field)`:
set only when the optional string is present and truthy (non-empty). -/
def setIfTruthy (h : Headersm) (n : HeaderName) (v : Option String) :
    Headersm :=
  match v with
  | some s => if s = "" then h else hset h n s
  | none => h

/-- Model of `parseHTTPMetadata` from `util.ts`.  Note a present `cacheExpiry`
date object is always truthy (even an Invalid Date), so `Expires` is set
whenever the field is present. -/
def parseHTTPMetadata (dm : DateModel) (headers : Option R2HTTPMetadata) :
    Headersm :=
  match headers with
  | none => []
  | some m =>
    let r : Headersm := []
    let r := setIfTruthy r .cacheControl m.cacheControl
    let r :=
      match m.cacheExpiry with
      | some d => hset r .expires (dm.toUTCString d)
      | none => r
    let r := setIfTruthy r .contentType m.contentType
    let r := setIfTruthy r .contentDisposition m.contentDisposition
    let r := setIfTruthy r .contentEncoding m.contentEncoding
    let r := setIfTruthy r .contentLanguage m.contentLanguage
    r

/-! ### CloudflareR2Cache orchestrator

The class methods are embedded as pure functions over an explicit R2 store
state plus an abstract bulk store, each returning its result together with
the trace of I/O events it issues, in issue order.  `await Promise.all` of
the chunk deletions contributes all chunk events before any event of the
continuation, which encodes the join-before-purge ordering boundary. -/

/-- Body of a purge POST: `purge_everything: true` or a `files` list. -/
inductive PurgeBody where
  | everything
  | files (urls : List String)
deriving DecidableEq, Repr

/-- I/O events issued by the orchestrator (store accesses and edge calls). -/
inductive Event where
  | r2get (key : String)
  | r2put (key : String)
  | listObjects (bucket : String) (pfx : Option String)
  | batchDelete (bucket : String) (keys : List (Option String))
  | purge (url : String) (body : PurgeBody)
deriving DecidableEq, Repr

/-- Events that touch a store or the edge; every event is I/O. -/
def Event.isIO : Event → Bool := fun _ => true

def Event.isBatchDelete : Event → Bool
  | .batchDelete _ _ => true
  | _ => false

def Event.isPurge : Event → Bool
  | .purge _ _ => true
  | _ => false

/-- Keys of a batch-delete event, `none` otherwise. -/
def Event.batchKeys : Event → Option (List (Option String))
  | .batchDelete _ ks => some ks
  | _ => none

/-- The `CFCache` field built by the constructor when `cfConfig` is given
(the purge endpoint URL is derived from the zone id; the auth headers take
no part in any claim). -/
structure CFCacheCfg where
  origin : String
  url : String
deriving DecidableEq, Repr

/-- Model of the constructor from `cfConfig`:
`url = https://api.cloudflare.com/client/v4/zones/${zoneId}/purge_cache`. -/
def mkCFCacheCfg (origin zoneId : String) : CFCacheCfg :=
  { origin := origin
    url := "https://api.cloudflare.com/client/v4/zones/" ++ zoneId
      ++ "/purge_cache" }

/-- Immutable configuration of a `CloudflareR2Cache` instance: the bucket
name and the optional edge (`CFCache`) configuration. -/
structure CacheCfg where
  bucket : String
  CFCache : Option CFCacheCfg
deriving DecidableEq, Repr

/-- Model of the stored custom metadata record (only the two fields the code
reads). -/
structure CustomMetadata where
  statusCode : Option String
  statusText : Option String
deriving DecidableEq, Repr

/-- An object at rest in the R2 bucket.  `size`, `httpEtag` and `uploaded`
are store-computed (`size` from the uploaded payload, fingerprint and
timestamp chosen by the store). -/
structure StoredObj where
  body : Option (List Nat)
  size : Nat
  httpEtag : String
  uploaded : JSDate
  httpMetadata : Option R2HTTPMetadata
  customMetadata : Option CustomMetadata
deriving DecidableEq, Repr

/-- State of the R2 binding: newest binding first, so lookup finds the most
recent write (last writer wins). -/
abbrev R2State := List (String × StoredObj)

/-- Model of `R2Bucket.get`. -/
def r2getState (st : R2State) (k : String) : Option StoredObj :=
  (st.find? (fun p => p.1 = k)).map (fun p => p.2)

/-- Model of `R2Bucket.put`: prepend, shadowing any previous object. -/
def r2putState (st : R2State) (k : String) (o : StoredObj) : R2State :=
  (k, o) :: st

/-- Behavior of the bulk (S3) side of the store, abstracted: the flattened
key listing per prefix, and the `Deleted` keys each `DeleteObjectsCommand`
reports for a requested key batch. -/
structure BulkStore where
  listKeys : Option String → List String
  s3delete : List (Option String) → List String

/-- Errors surfaced by the orchestrator; `invalidKey` models
`new Error("Invalid cache key from request.")`. -/
inductive CacheErr where
  | invalidKey
deriving DecidableEq, Repr

/-- Model of a JavaScript `Response` as produced or consumed by the cache. -/
structure JSResponse where
  body : Option (List Nat)
  headers : Headersm
  status : Nat
  statusText : String
deriving DecidableEq, Repr

/-- Model of `CloudflareR2Cache.keys`: paginated `ListObjectsV2` drained to a
flat key list, with the prefix derived from the optional request. -/
def cacheKeys (cfg : CacheCfg) (bs : BulkStore) (request : Option ReqInput) :
    List String × List Event :=
  (bs.listKeys (_getKey request),
    [Event.listObjects cfg.bucket (_getKey request)])

/-- Model of `CloudflareR2Cache.match`.  The store-assigned fields of the
retrieved object feed the computed headers; an absent object is a miss. -/
def cacheMatch (dm : DateModel) (cfg : CacheCfg) (st : R2State)
    (request : ReqInput) : Except CacheErr (Option JSResponse) × List Event :=
  let key := _getKey (some request)
  if jsFalsyKey key then (.error .invalidKey, [])
  else
    match key with
    | none => (.error .invalidKey, [])
    | some k =>
      match r2getState st k with
      | none => (.ok none, [.r2get k])
      | some o =>
        let headers := parseHTTPMetadata dm o.httpMetadata
        let headers := hset headers .etag o.httpEtag
        let headers := hset headers .contentLength (jsToString o.size)
        let headers := hset headers .lastModified (dm.toUTCString o.uploaded)
        let headers := hset headers .cdnCacheControl
          ("public, max-age=" ++ jsToString (60 * 60 * 24 * 365))
        let status : Nat := if o.body.isSome then 200 else 304
        let statusText : String := ""
        let status :=
          match o.customMetadata with
          | some cm =>
            match cm.statusCode with
            | some sc => if sc = "" then status else jsParseInt sc
            | none => status
          | none => status
        let statusText :=
          match o.customMetadata with
          | some cm =>
            match cm.statusText with
            | some stx => if stx = "" then statusText else stx
            | none => statusText
          | none => statusText
        let result : JSResponse :=
          { body := o.body
            headers := headers
            status := status
            statusText := statusText }
        (.ok (some result), [.r2get k])

/-- Model of `CloudflareR2Cache.put`.  The response body is fully
materialized (`arrayBuffer`, empty for a null body); `etag` and `up` are the
fingerprint and timestamp the store assigns to the new object. -/
def cachePut (dm : DateModel) (cfg : CacheCfg) (st : R2State) (etag : String)
    (up : JSDate) (request : ReqInput) (resp : JSResponse) :
    Except CacheErr (StoredObj × R2State) × List Event :=
  let key := _getKey (some request)
  if jsFalsyKey key then (.error .invalidKey, [])
  else
    match key with
    | none => (.error .invalidKey, [])
    | some k =>
      let buffer := resp.body.getD []
      let stored : StoredObj :=
        { body := some buffer
          size := buffer.length
          httpEtag := etag
          uploaded := up
          httpMetadata := some (serializeHTTPMetadata dm resp.headers)
          customMetadata := some
            { statusCode := some (jsToString resp.status)
              statusText := some resp.statusText } }
      (.ok (stored, r2putState st k stored), [.r2put k])

/-- Model of `CloudflareR2Cache.deleteMany`: chunk the requests, issue one
batch delete per chunk (joined before anything later), flatten the reported
`Deleted` keys, then purge the derived URLs if an edge config is present. -/
def deleteMany (cfg : CacheCfg) (bs : BulkStore)
    (requests : List ReqInput) : List String × List Event :=
  if requests.isEmpty then ([], [])
  else
    let chunks := chunkArray requests 1000
    let chunkKeys := chunks.map (fun chunk =>
      chunk.map (fun req => _getKey (some req)))
    let delEvents := chunkKeys.map (fun ks => Event.batchDelete cfg.bucket ks)
    let deleted := (chunkKeys.map (fun ks => bs.s3delete ks)).flatten
    let purgeKeys := requests.map (fun req => _getKey (some req))
    match cfg.CFCache with
    | some cf =>
      (deleted, delEvents ++ [Event.purge cf.url
        (.files (purgeKeys.map (fun p => cf.origin ++ jsTemplate p)))])
    | none => (deleted, delEvents)

/-- Model of `CloudflareR2Cache.delete`. -/
def cacheDelete (cfg : CacheCfg) (bs : BulkStore) (request : ReqInput) :
    List String × List Event :=
  deleteMany cfg bs [request]

/-- Model of `CloudflareR2Cache.deleteAll`: list every key, return `[]`
immediately when there are none, otherwise chunk-delete exactly as in
`deleteMany` (the listed keys are strings, so `_getKey` passes them through)
and then purge everything if an edge config is present. -/
def deleteAll (cfg : CacheCfg) (bs : BulkStore) :
    List String × List Event :=
  let kr := cacheKeys cfg bs none
  let ks := kr.1
  if ks.isEmpty then ([], kr.2)
  else
    let chunks := chunkArray ks 1000
    let chunkKeys := chunks.map (fun chunk =>
      chunk.map (fun k => _getKey (some (.str k))))
    let delEvents := chunkKeys.map (fun kk => Event.batchDelete cfg.bucket kk)
    let deleted := (chunkKeys.map (fun kk => bs.s3delete kk)).flatten
    match cfg.CFCache with
    | some cf =>
      (deleted, kr.2 ++ delEvents ++ [Event.purge cf.url .everything])
    | none => (deleted, kr.2 ++ delEvents)

/-! ### Concrete fixtures used by witnesses and counterexamples -/

/-- Concrete instantiation of the abstract date builtins, used to evaluate
the model at specific inputs. -/
def dmTest : DateModel :=
  { parse := fun s => ⟨some s.length⟩
    toUTCString := fun d =>
      match d.millis with
      | some _ => "Thu, 01 Jan 1970 00:00:00 GMT"
      | none => "Invalid Date" }

/-- Concrete edge configuration. -/
def cfTest : CFCacheCfg := mkCFCacheCfg "https://example.com" "zone1"

/-- Concrete cache configuration with an edge config present. -/
def cfgEdge : CacheCfg := { bucket := "bucket", CFCache := some cfTest }

/-- Concrete cache configuration without an edge config. -/
def cfgNoEdge : CacheCfg := { bucket := "bucket", CFCache := none }

/-- Bulk store holding no keys and deleting nothing. -/
def bsEmpty : BulkStore := { listKeys := fun _ => [], s3delete := fun _ => [] }

/-- Bulk store holding two keys and reporting every requested key deleted. -/
def bsTwo : BulkStore :=
  { listKeys := fun _ => ["/a", "/b"], s3delete := fun ks => ks.filterMap id }

/-- Concrete response fixture: body `hello`, one codec header. -/
def respTest : JSResponse :=
  { body := some [104, 101, 108, 108, 111]
    headers := [(.contentType, "text/html")]
    status := 200
    statusText := "OK" }

/-- Concrete response fixture with a non-default status. -/
def resp404 : JSResponse :=
  { body := some [110, 111]
    headers := [(.contentType, "text/html")]
    status := 404
    statusText := "Not Found" }

/-- Headers fixture whose six codec fields are all present with empty
values. -/
def hEmptyVals : Headersm :=
  [(.cacheControl, ""), (.expires, ""), (.contentType, ""),
   (.contentDisposition, ""), (.contentEncoding, ""), (.contentLanguage, "")]

/-- Headers fixture with two non-empty codec fields. -/
def hRound : Headersm :=
  [(.contentType, "text/html"), (.expires, "Wed, 21 Oct 2015 07:28:00 GMT")]

/-- Stored-object fixture for the `match` header computation. -/
def stObj : StoredObj :=
  { body := some [104]
    size := 1
    httpEtag := "etagW"
    uploaded := ⟨some 0⟩
    httpMetadata := some
      { cacheControl := none
        cacheExpiry := none
        contentType := some "text/html"
        contentDisposition := none
        contentEncoding := none
        contentLanguage := none }
    customMetadata := some { statusCode := some "200", statusText := some "OK" } }

/-- R2 state fixture holding `stObj` at key `/p`. -/
def stOne : R2State := [("/p", stObj)]

/-! ### Lemmas -/

theorem parseDigits_append (l : List Char) (c : Char) :
    parseDigits (l ++ [c]) = parseDigits l * 10 + (c.toNat - 48) := by
  simp [parseDigits, List.foldl_append]

theorem digitChar_toNat_sub (m : Nat) (h : m < 10) :
    (Nat.digitChar m).toNat - 48 = m := by
  interval_cases m <;> decide

theorem parseDigits_toDecAux (fuel : Nat) :
    ∀ n : Nat, n ≤ fuel → parseDigits (toDecAux fuel n) = n := by
  induction fuel with
  | zero =>
    intro n h
    interval_cases n
    simp [toDecAux, parseDigits]
  | succ f ih =>
    intro n h
    by_cases hn : n = 0
    · simp [toDecAux, hn, parseDigits]
    · have hdiv : n / 10 ≤ f := by
        have := Nat.div_lt_self (Nat.pos_of_ne_zero hn) (by omega : 1 < 10)
        omega
      simp only [toDecAux, if_neg hn, parseDigits_append, ih (n / 10) hdiv,
        digitChar_toNat_sub (n % 10) (Nat.mod_lt _ (by omega))]
      omega

/-- The decimal render/parse pair is the identity on naturals: this is the
environment fact the status-code round trip relies on. -/
theorem jsParseInt_jsToString (n : Nat) : jsParseInt (jsToString n) = n := by
  by_cases hn : n = 0
  · subst hn; decide
  · simp only [jsToString, if_neg hn, jsParseInt]
    exact parseDigits_toDecAux (n + 1) n (by omega)

theorem toDecAux_ne_nil (fuel n : Nat) (hf : fuel ≠ 0) (hn : n ≠ 0) :
    toDecAux fuel n ≠ [] := by
  cases fuel with
  | zero => exact absurd rfl hf
  | succ f => simp [toDecAux, hn]

/-- A rendered decimal numeral is never the empty string (so the stored
`statusCode` metadata is always truthy in JavaScript). -/
theorem jsToString_ne_empty (n : Nat) : jsToString n ≠ "" := by
  by_cases hn : n = 0
  · subst hn; decide
  · simp only [jsToString, if_neg hn]
    intro h
    have : toDecAux (n + 1) n = [] := by
      have := congrArg String.data h
      simpa using this
    exact toDecAux_ne_nil (n + 1) n (by omega) hn this

theorem hget_nil (n : HeaderName) : hget [] n = none := rfl

theorem hget_hset_self (h : Headersm) (n : HeaderName) (v : String) :
    hget (hset h n v) n = some v := by
  unfold hget hset
  by_cases hmem : h.any (fun p => p.1 = n)
  · rw [if_pos hmem]
    induction h with
    | nil => simp at hmem
    | cons p t ih =>
      by_cases hp : p.1 = n
      · rw [List.map_cons, if_pos hp,
          List.find?_cons_of_pos _ (by simpa using hp)]
        rfl
      · simp only [List.any_cons, Bool.or_eq_true, decide_eq_true_eq, hp,
          false_or] at hmem
        rw [List.map_cons, if_neg hp,
          List.find?_cons_of_neg _ (by simpa using hp)]
        exact ih (by simpa using hmem)
  · rw [if_neg hmem]
    have hnone : h.find? (fun p => decide (p.1 = n)) = none := by
      rw [List.find?_eq_none]
      intro x hx
      simp only [List.any_eq_true, not_exists, not_and] at hmem
      simpa using hmem x hx
    rw [List.find?_append, hnone, Option.none_or,
      List.find?_cons_of_pos _ (by simp)]
    rfl

theorem hget_hset_ne (h : Headersm) (n m : HeaderName) (v : String)
    (hnm : m ≠ n) : hget (hset h n v) m = hget h m := by
  unfold hget hset
  by_cases hmem : h.any (fun p => p.1 = n)
  · rw [if_pos hmem]
    clear hmem
    induction h with
    | nil => simp
    | cons p t ih =>
      by_cases hp : p.1 = n
      · have hpm : ¬ p.1 = m := by rw [hp]; exact fun hc => hnm hc.symm
        rw [List.map_cons, if_pos hp,
          List.find?_cons_of_neg _ (by simpa using hpm),
          List.find?_cons_of_neg _ (by simpa using hpm)]
        exact ih
      · by_cases hpm : p.1 = m
        · rw [List.map_cons, if_neg hp,
            List.find?_cons_of_pos _ (by simpa using hpm),
            List.find?_cons_of_pos _ (by simpa using hpm)]
        · rw [List.map_cons, if_neg hp,
            List.find?_cons_of_neg _ (by simpa using hpm),
            List.find?_cons_of_neg _ (by simpa using hpm)]
          exact ih
  · rw [if_neg hmem]
    rw [List.find?_append]
    have htail : List.find? (fun p => decide (p.1 = m)) [(n, v)] = none := by
      rw [List.find?_eq_none]
      intro x hx
      simp only [List.mem_singleton] at hx
      subst hx
      simpa using fun hc => hnm hc.symm
    rw [htail]
    cases List.find? (fun p => decide (p.1 = m)) h <;> rfl

theorem chunkArrayFuel_irrel {α : Type} (size : Nat) (hs : 0 < size) :
    ∀ (f₁ : Nat) (arr : List α) (f₂ : Nat), arr.length ≤ f₁ → arr.length ≤ f₂ →
      chunkArrayFuel f₁ arr size = chunkArrayFuel f₂ arr size := by
  intro f₁
  induction f₁ with
  | zero =>
    intro arr f₂ h1 _
    have harr : arr = [] := List.length_eq_zero.mp (by omega)
    subst harr
    cases f₂ with
    | zero => rfl
    | succ g => simp [chunkArrayFuel, hs]
  | succ f ih =>
    intro arr f₂ h1 h2
    cases f₂ with
    | zero =>
      have harr : arr = [] := List.length_eq_zero.mp (by omega)
      subst harr
      simp [chunkArrayFuel, hs]
    | succ g =>
      simp only [chunkArrayFuel]
      by_cases hgt : arr.length > size
      · rw [if_pos hgt, if_pos hgt,
          ih (arr.drop size) g (by simp; omega) (by simp; omega)]
      · rw [if_neg hgt, if_neg hgt]

theorem chunkArray_eq {α : Type} (arr : List α) (size : Nat) (hs : 0 < size) :
    chunkArray arr size =
      if arr.length > size then
        arr.take size :: chunkArray (arr.drop size) size
      else [arr] := by
  by_cases hgt : arr.length > size
  · rw [if_pos hgt]
    unfold chunkArray
    have h1 : arr.length = (arr.length - 1) + 1 := by omega
    rw [h1]
    simp only [chunkArrayFuel, ← h1, if_pos hgt]
    congr 1
    exact chunkArrayFuel_irrel size hs (arr.length - 1) (arr.drop size)
      (arr.drop size).length (by simp; omega) (le_refl _)
  · rw [if_neg hgt]
    unfold chunkArray
    cases hl : arr.length with
    | zero => rfl
    | succ k => simp [chunkArrayFuel, hl, hgt, show ¬ k + 1 > size by omega]

theorem chunkArray_join {α : Type} (size : Nat) (hs : 0 < size) :
    ∀ (fuel : Nat) (arr : List α), arr.length ≤ fuel →
      (chunkArray arr size).flatten = arr := by
  intro fuel
  induction fuel with
  | zero =>
    intro arr h
    have harr : arr = [] := List.length_eq_zero.mp (by omega)
    subst harr
    simp [chunkArray, chunkArrayFuel]
  | succ f ih =>
    intro arr h
    rw [chunkArray_eq arr size hs]
    by_cases hgt : arr.length > size
    · rw [if_pos hgt]
      simp only [List.flatten_cons]
      rw [ih (arr.drop size) (by simp; omega)]
      exact List.take_append_drop size arr
    · rw [if_neg hgt]
      simp

theorem chunkArray_mem_length {α : Type} (size : Nat) (hs : 0 < size) :
    ∀ (fuel : Nat) (arr : List α), arr.length ≤ fuel →
      ∀ c ∈ chunkArray arr size, c.length ≤ size := by
  intro fuel
  induction fuel with
  | zero =>
    intro arr h c hc
    have harr : arr = [] := List.length_eq_zero.mp (by omega)
    subst harr
    simp [chunkArray, chunkArrayFuel] at hc
    subst hc
    simpa using hs.le
  | succ f ih =>
    intro arr h c hc
    rw [chunkArray_eq arr size hs] at hc
    by_cases hgt : arr.length > size
    · rw [if_pos hgt] at hc
      rcases List.mem_cons.mp hc with hc | hc
      · subst hc
        simp [List.length_take]
      · exact ih (arr.drop size) (by simp; omega) c hc
    · rw [if_neg hgt] at hc
      simp only [List.mem_singleton] at hc
      subst hc
      omega

theorem chunkArray_length {α : Type} (size : Nat) (hs : 0 < size) :
    ∀ (fuel : Nat) (arr : List α), arr.length ≤ fuel → 0 < arr.length →
      (chunkArray arr size).length = (arr.length + size - 1) / size := by
  intro fuel
  induction fuel with
  | zero =>
    intro arr h hpos
    omega
  | succ f ih =>
    intro arr h hpos
    rw [chunkArray_eq arr size hs]
    by_cases hgt : arr.length > size
    · rw [if_pos hgt]
      simp only [List.length_cons]
      rw [ih (arr.drop size) (by simp; omega) (by simp; omega)]
      simp only [List.length_drop]
      have h1 : arr.length + size - 1 = (arr.length - size + size - 1) + size := by
        omega
      rw [h1, Nat.add_div_right _ hs]
    · rw [if_neg hgt]
      simp only [List.length_singleton]
      have hlo : 1 * size ≤ arr.length + size - 1 := by omega
      have hhi : arr.length + size - 1 < 2 * size := by omega
      have h1 : (arr.length + size - 1) / size = 1 :=
        Nat.div_eq_of_lt_le hlo hhi
      omega

theorem hget_setIfTruthy_ne (h : Headersm) (n m : HeaderName)
    (v : Option String) (hnm : m ≠ n) :
    hget (setIfTruthy h n v) m = hget h m := by
  cases v with
  | none => rfl
  | some s =>
    by_cases hs : s = ""
    · simp [setIfTruthy, hs]
    · simp [setIfTruthy, hs, hget_hset_ne _ _ _ _ hnm]

theorem hget_setIfTruthy_self (h : Headersm) (n : HeaderName)
    (v : Option String) :
    hget (setIfTruthy h n v) n =
      match v with
      | some s => if s = "" then hget h n else some s
      | none => hget h n := by
  cases v with
  | none => rfl
  | some s =>
    by_cases hs : s = ""
    · simp [setIfTruthy, hs]
    · simp [setIfTruthy, hs, hget_hset_self]

/-- Lookup characterization of the codec output, one equation per header
name the deserializer can produce. -/
theorem hget_parseHTTPMetadata (dm : DateModel) (m : R2HTTPMetadata) :
    (hget (parseHTTPMetadata dm (some m)) .cacheControl =
      orUndefined m.cacheControl) ∧
    (hget (parseHTTPMetadata dm (some m)) .expires =
      (m.cacheExpiry).map dm.toUTCString) ∧
    (hget (parseHTTPMetadata dm (some m)) .contentType =
      orUndefined m.contentType) ∧
    (hget (parseHTTPMetadata dm (some m)) .contentDisposition =
      orUndefined m.contentDisposition) ∧
    (hget (parseHTTPMetadata dm (some m)) .contentEncoding =
      orUndefined m.contentEncoding) ∧
    (hget (parseHTTPMetadata dm (some m)) .contentLanguage =
      orUndefined m.contentLanguage) ∧
    (∀ n : HeaderName, n ≠ .cacheControl → n ≠ .expires → n ≠ .contentType →
      n ≠ .contentDisposition → n ≠ .contentEncoding →
      n ≠ .contentLanguage → hget (parseHTTPMetadata dm (some m)) n = none) := by
  unfold parseHTTPMetadata
  simp only
  refine ⟨?_, ?_, ?_, ?_, ?_, ?_, ?_⟩
  · rw [hget_setIfTruthy_ne _ _ _ _ (by simp),
      hget_setIfTruthy_ne _ _ _ _ (by simp),
      hget_setIfTruthy_ne _ _ _ _ (by simp),
      hget_setIfTruthy_ne _ _ _ _ (by simp)]
    cases hce : m.cacheExpiry with
    | none =>
      rw [hget_setIfTruthy_self]
      cases m.cacheControl with
      | none => rfl
      | some s =>
        by_cases hs : s = "" <;> simp [hs, orUndefined, hget_nil]
    | some d =>
      rw [hget_hset_ne _ _ _ _ (by simp), hget_setIfTruthy_self]
      cases m.cacheControl with
      | none => rfl
      | some s =>
        by_cases hs : s = "" <;> simp [hs, orUndefined, hget_nil]
  · rw [hget_setIfTruthy_ne _ _ _ _ (by simp),
      hget_setIfTruthy_ne _ _ _ _ (by simp),
      hget_setIfTruthy_ne _ _ _ _ (by simp),
      hget_setIfTruthy_ne _ _ _ _ (by simp)]
    cases hce : m.cacheExpiry with
    | none =>
      rw [hget_setIfTruthy_ne _ _ _ _ (by simp)]
      rfl
    | some d =>
      rw [hget_hset_self]
      rfl
  · rw [hget_setIfTruthy_ne _ _ _ _ (by simp),
      hget_setIfTruthy_ne _ _ _ _ (by simp),
      hget_setIfTruthy_ne _ _ _ _ (by simp),
      hget_setIfTruthy_self]
    have hrest : hget
        (match m.cacheExpiry with
          | some d => hset (setIfTruthy [] .cacheControl m.cacheControl)
              .expires (dm.toUTCString d)
          | none => setIfTruthy [] .cacheControl m.cacheControl)
        .contentType = none := by
      cases m.cacheExpiry with
      | none =>
        rw [hget_setIfTruthy_ne _ _ _ _ (by simp)]
        rfl
      | some d =>
        rw [hget_hset_ne _ _ _ _ (by simp),
          hget_setIfTruthy_ne _ _ _ _ (by simp)]
        rfl
    rw [hrest]
    cases m.contentType with
    | none => rfl
    | some s => by_cases hs : s = "" <;> simp [hs, orUndefined]
  · rw [hget_setIfTruthy_ne _ _ _ _ (by simp),
      hget_setIfTruthy_ne _ _ _ _ (by simp),
      hget_setIfTruthy_self,
      hget_setIfTruthy_ne _ _ _ _ (by simp)]
    have hrest : hget
        (match m.cacheExpiry with
          | some d => hset (setIfTruthy [] .cacheControl m.cacheControl)
              .expires (dm.toUTCString d)
          | none => setIfTruthy [] .cacheControl m.cacheControl)
        .contentDisposition = none := by
      cases m.cacheExpiry with
      | none =>
        rw [hget_setIfTruthy_ne _ _ _ _ (by simp)]
        rfl
      | some d =>
        rw [hget_hset_ne _ _ _ _ (by simp),
          hget_setIfTruthy_ne _ _ _ _ (by simp)]
        rfl
    rw [hrest]
    cases m.contentDisposition with
    | none => rfl
    | some s => by_cases hs : s = "" <;> simp [hs, orUndefined]
  · rw [hget_setIfTruthy_ne _ _ _ _ (by simp),
      hget_setIfTruthy_self,
      hget_setIfTruthy_ne _ _ _ _ (by simp),
      hget_setIfTruthy_ne _ _ _ _ (by simp)]
    have hrest : hget
        (match m.cacheExpiry with
          | some d => hset (setIfTruthy [] .cacheControl m.cacheControl)
              .expires (dm.toUTCString d)
          | none => setIfTruthy [] .cacheControl m.cacheControl)
        .contentEncoding = none := by
      cases m.cacheExpiry with
      | none =>
        rw [hget_setIfTruthy_ne _ _ _ _ (by simp)]
        rfl
      | some d =>
        rw [hget_hset_ne _ _ _ _ (by simp),
          hget_setIfTruthy_ne _ _ _ _ (by simp)]
        rfl
    rw [hrest]
    cases m.contentEncoding with
    | none => rfl
    | some s => by_cases hs : s = "" <;> simp [hs, orUndefined]
  · rw [hget_setIfTruthy_self,
      hget_setIfTruthy_ne _ _ _ _ (by simp),
      hget_setIfTruthy_ne _ _ _ _ (by simp),
      hget_setIfTruthy_ne _ _ _ _ (by simp)]
    have hrest : hget
        (match m.cacheExpiry with
          | some d => hset (setIfTruthy [] .cacheControl m.cacheControl)
              .expires (dm.toUTCString d)
          | none => setIfTruthy [] .cacheControl m.cacheControl)
        .contentLanguage = none := by
      cases m.cacheExpiry with
      | none =>
        rw [hget_setIfTruthy_ne _ _ _ _ (by simp)]
        rfl
      | some d =>
        rw [hget_hset_ne _ _ _ _ (by simp),
          hget_setIfTruthy_ne _ _ _ _ (by simp)]
        rfl
    rw [hrest]
    cases m.contentLanguage with
    | none => rfl
    | some s => by_cases hs : s = "" <;> simp [hs, orUndefined]
  · intro n h1 h2 h3 h4 h5 h6
    rw [hget_setIfTruthy_ne _ _ _ _ h6, hget_setIfTruthy_ne _ _ _ _ h5,
      hget_setIfTruthy_ne _ _ _ _ h4, hget_setIfTruthy_ne _ _ _ _ h3]
    cases m.cacheExpiry with
    | none =>
      rw [hget_setIfTruthy_ne _ _ _ _ h1]
      rfl
    | some d =>
      rw [hget_hset_ne _ _ _ _ h2, hget_setIfTruthy_ne _ _ _ _ h1]
      rfl

theorem filterMap_batchKeys_map (b : String)
    (l : List (List (Option String))) :
    (l.map (fun ks => Event.batchDelete b ks)).filterMap Event.batchKeys
      = l := by
  induction l with
  | nil => rfl
  | cons x t ih => simp [Event.batchKeys, ih]

theorem deleteMany_batch_trace (cfg : CacheCfg) (bs : BulkStore)
    (reqs : List ReqInput) (h : reqs ≠ []) :
    (deleteMany cfg bs reqs).2.filterMap Event.batchKeys =
      (chunkArray reqs 1000).map
        (fun c => c.map (fun r => _getKey (some r))) := by
  unfold deleteMany
  rw [if_neg (by simpa [List.isEmpty_iff] using h)]
  cases cfg.CFCache with
  | none =>
    simp only
    rw [filterMap_batchKeys_map]
  | some cf =>
    simp only
    rw [List.filterMap_append, filterMap_batchKeys_map]
    simp [Event.batchKeys]

/-! ### Claim theorems -/

/-- C1, counterexample: with an edge config present and an empty store,
`deleteAll()` does NOT issue a purge-everything call — the claim that it
issues exactly one purge call (alongside zero batch deletes) is false, since
the code returns `[]` before reaching the purge step. -/
theorem deleteAll_empty_purge_cex :
    ¬ ((((deleteAll cfgEdge bsEmpty).2.filter Event.isBatchDelete).length = 0) ∧
       (((deleteAll cfgEdge bsEmpty).2.filter Event.isPurge).length = 1)) := by
  decide

/-- C1, amended: `deleteAll()` on an empty store issues zero batch-delete
calls and zero purge calls of any kind: its whole I/O trace is the single
key listing, and it returns the empty deleted list (the early `return []`
precedes the purge block). -/
theorem deleteAll_empty_skips_purge (cfg : CacheCfg) (bs : BulkStore)
    (h : bs.listKeys none = []) :
    deleteAll cfg bs = ([], [Event.listObjects cfg.bucket none]) := by
  simp [deleteAll, cacheKeys, _getKey, h]

/-- Witness for `deleteAll_empty_skips_purge` at the empty bulk store. -/
theorem deleteAll_empty_skips_purge_witness :
    bsEmpty.listKeys none = [] ∧
    deleteAll cfgEdge bsEmpty = ([], [Event.listObjects "bucket" none]) :=
  ⟨rfl, deleteAll_empty_skips_purge cfgEdge bsEmpty rfl⟩

/-- C3, counterexample: `deleteMany` performs no key validation.  Fed the
request `""` — from which no valid cache key is derivable (`""` is never a
valid key) — it raises nothing and still issues a batch-delete I/O call
naming the invalid key, so the claim that every `delete*` call raises
`InvalidKeyError` before any I/O is false. -/
theorem deleteMany_no_validation_cex :
    ¬ ((deleteMany cfgEdge bsEmpty [ReqInput.str ""]).2.filter
        Event.isBatchDelete = []) := by
  decide

/-- C3, amended: only `match` and `put` validate the derived key; whenever
the key is falsy (underivable or empty) they fail with `InvalidKeyError`
and an empty I/O trace, before any store access.  The `delete` family
performs no such validation. -/
theorem match_put_reject_invalid_key (dm : DateModel) (cfg : CacheCfg)
    (st : R2State) (etag : String) (up : JSDate) (r : ReqInput)
    (resp : JSResponse) (h : jsFalsyKey (_getKey (some r)) = true) :
    cacheMatch dm cfg st r = (.error .invalidKey, []) ∧
    cachePut dm cfg st etag up r resp = (.error .invalidKey, []) := by
  constructor
  · simp [cacheMatch, h]
  · simp [cachePut, h]

/-- Witness for `match_put_reject_invalid_key` at the empty-string request. -/
theorem match_put_reject_invalid_key_witness :
    jsFalsyKey (_getKey (some (ReqInput.str ""))) = true ∧
    (cacheMatch dmTest cfgEdge [] (ReqInput.str "") =
        (.error .invalidKey, []) ∧
      cachePut dmTest cfgEdge [] "etag1" ⟨none⟩ (ReqInput.str "") respTest =
        (.error .invalidKey, [])) :=
  ⟨rfl, match_put_reject_invalid_key dmTest cfgEdge [] "etag1" ⟨none⟩
    (ReqInput.str "") respTest rfl⟩

/-- C6: over any non-empty request list, `deleteMany` issues exactly
`⌈N / 1000⌉` batch-delete calls; the concatenation of the batch key lists is
exactly the input's derived key list (no duplicates introduced, no
omissions), and no batch names more than 1000 keys. -/
theorem deleteMany_chunk_partition (cfg : CacheCfg) (bs : BulkStore)
    (reqs : List ReqInput) (h : reqs ≠ []) :
    ((deleteMany cfg bs reqs).2.filterMap Event.batchKeys).length =
      (reqs.length + 999) / 1000 ∧
    ((deleteMany cfg bs reqs).2.filterMap Event.batchKeys).flatten =
      reqs.map (fun r => _getKey (some r)) ∧
    ∀ ks ∈ (deleteMany cfg bs reqs).2.filterMap Event.batchKeys,
      ks.length ≤ 1000 := by
  rw [deleteMany_batch_trace cfg bs reqs h]
  refine ⟨?_, ?_, ?_⟩
  · rw [List.length_map]
    exact chunkArray_length 1000 (by omega) reqs.length reqs (le_refl _)
      (List.length_pos.mpr h)
  · rw [← List.map_flatten,
      chunkArray_join 1000 (by omega) reqs.length reqs (le_refl _)]
  · intro ks hks
    rw [List.mem_map] at hks
    obtain ⟨c, hc, rfl⟩ := hks
    rw [List.length_map]
    exact chunkArray_mem_length 1000 (by omega) reqs.length reqs (le_refl _)
      c hc

/-- Witness for `deleteMany_chunk_partition` on a two-request list. -/
theorem deleteMany_chunk_partition_witness :
    ([ReqInput.str "/a", ReqInput.str "/b"] ≠ ([] : List ReqInput)) ∧
    (((deleteMany cfgEdge bsTwo [ReqInput.str "/a", ReqInput.str "/b"]).2.filterMap
        Event.batchKeys).length = (2 + 999) / 1000 ∧
      ((deleteMany cfgEdge bsTwo [ReqInput.str "/a", ReqInput.str "/b"]).2.filterMap
        Event.batchKeys).flatten =
        [ReqInput.str "/a", ReqInput.str "/b"].map
          (fun r => _getKey (some r)) ∧
      ∀ ks ∈ (deleteMany cfgEdge bsTwo
          [ReqInput.str "/a", ReqInput.str "/b"]).2.filterMap Event.batchKeys,
        ks.length ≤ 1000) :=
  ⟨by decide, by
    have := deleteMany_chunk_partition cfgEdge bsTwo
      [ReqInput.str "/a", ReqInput.str "/b"] (by decide)
    simpa using this⟩

theorem deleteMany_trace_edge (b : String) (cf : CFCacheCfg) (bs : BulkStore)
    (reqs : List ReqInput) (h : reqs ≠ []) :
    (deleteMany ⟨b, some cf⟩ bs reqs).2 =
      ((chunkArray reqs 1000).map
        (fun c => c.map (fun r => _getKey (some r)))).map
          (fun ks => Event.batchDelete b ks) ++
      [Event.purge cf.url (.files
        ((reqs.map (fun r => _getKey (some r))).map
          (fun p => cf.origin ++ jsTemplate p)))] := by
  unfold deleteMany
  rw [if_neg (by simpa [List.isEmpty_iff] using h)]

/-- C2: with an edge config present, `deleteMany` over a non-empty request
list issues exactly one purge call, and in the I/O trace every chunk
batch-delete event strictly precedes the purge event — the join of all chunk
deletions is a hard ordering boundary before the purge fires.  (The embedding
serializes the parallel chunk calls' events in issue order; `await
Promise.all` makes all of them precede every event of the continuation.) -/
theorem deleteMany_purge_after_chunks (b : String) (cf : CFCacheCfg)
    (bs : BulkStore) (reqs : List ReqInput) (h : reqs ≠ []) :
    (((deleteMany ⟨b, some cf⟩ bs reqs).2.filter Event.isPurge).length = 1) ∧
    ∀ i j (hi : i < (deleteMany ⟨b, some cf⟩ bs reqs).2.length)
      (hj : j < (deleteMany ⟨b, some cf⟩ bs reqs).2.length),
      ((deleteMany ⟨b, some cf⟩ bs reqs).2.get ⟨i, hi⟩).isBatchDelete = true →
      ((deleteMany ⟨b, some cf⟩ bs reqs).2.get ⟨j, hj⟩).isPurge = true →
      i < j := by
  rw [deleteMany_trace_edge b cf bs reqs h]
  set E := ((chunkArray reqs 1000).map
    (fun c => c.map (fun r => _getKey (some r)))).map
      (fun ks => Event.batchDelete b ks) with hE
  have hEmem : ∀ e ∈ E, Event.isPurge e = false := by
    intro e he
    rw [hE, List.mem_map] at he
    obtain ⟨ks, _, rfl⟩ := he
    rfl
  constructor
  · rw [List.filter_append]
    have h1 : E.filter Event.isPurge = [] := by
      rw [List.filter_eq_nil_iff]
      intro e he
      simp [hEmem e he]
    rw [h1]
    rfl
  · intro i j hi hj hbi hpj
    simp only [List.get_eq_getElem] at hbi hpj
    have hlen : (E ++ [Event.purge cf.url (.files
        ((reqs.map (fun r => _getKey (some r))).map
          (fun p => cf.origin ++ jsTemplate p)))]).length = E.length + 1 := by
      simp
    have hjE : ¬ j < E.length := by
      intro hjlt
      rw [List.getElem_append_left hjlt] at hpj
      have := hEmem _ (List.getElem_mem hjlt)
      rw [this] at hpj
      exact Bool.false_ne_true hpj
    have hiE : i < E.length := by
      by_contra hilt
      push_neg at hilt
      rw [List.getElem_append_right hilt] at hbi
      simp only [List.getElem_singleton] at hbi
      exact Bool.false_ne_true hbi
    omega

/-- Witness for `deleteMany_purge_after_chunks` on a two-request list. -/
theorem deleteMany_purge_after_chunks_witness :
    ([ReqInput.str "/a", ReqInput.str "/b"] ≠ ([] : List ReqInput)) ∧
    ((((deleteMany ⟨"bucket", some cfTest⟩ bsTwo
        [ReqInput.str "/a", ReqInput.str "/b"]).2.filter
          Event.isPurge).length = 1) ∧
      ∀ i j (hi : i < (deleteMany ⟨"bucket", some cfTest⟩ bsTwo
          [ReqInput.str "/a", ReqInput.str "/b"]).2.length)
        (hj : j < (deleteMany ⟨"bucket", some cfTest⟩ bsTwo
          [ReqInput.str "/a", ReqInput.str "/b"]).2.length),
        ((deleteMany ⟨"bucket", some cfTest⟩ bsTwo
          [ReqInput.str "/a", ReqInput.str "/b"]).2.get
            ⟨i, hi⟩).isBatchDelete = true →
        ((deleteMany ⟨"bucket", some cfTest⟩ bsTwo
          [ReqInput.str "/a", ReqInput.str "/b"]).2.get
            ⟨j, hj⟩).isPurge = true →
        i < j) :=
  ⟨by decide, deleteMany_purge_after_chunks "bucket" cfTest bsTwo
    [ReqInput.str "/a", ReqInput.str "/b"] (by decide)⟩

/-- C8: with an edge config present and every request yielding a derivable
key, when the store reports each requested key deleted the trace of
`deleteMany` consists of the chunk batch-delete events followed by exactly
one purge request naming precisely the deleted keys, each prefixed with the
configured origin to form an absolute URL. -/
theorem deleteMany_purge_urls (b : String) (cf : CFCacheCfg) (bs : BulkStore)
    (reqs : List ReqInput) (h : reqs ≠ [])
    (hdel : ∀ ks, bs.s3delete ks = ks.filterMap id) :
    ∃ E, (deleteMany ⟨b, some cf⟩ bs reqs).2 =
        E ++ [Event.purge cf.url (.files
          ((deleteMany ⟨b, some cf⟩ bs reqs).1.map
            (fun k => cf.origin ++ k)))] ∧
      ∀ e ∈ E, e.isBatchDelete = true := by
  have hres : (deleteMany ⟨b, some cf⟩ bs reqs).1 =
      reqs.map (fun r => jsTemplate (_getKey (some r))) := by
    unfold deleteMany
    rw [if_neg (by simpa [List.isEmpty_iff] using h)]
    simp only [hdel]
    have hcomm : ∀ c : List ReqInput,
        (c.map (fun r => _getKey (some r))).filterMap id =
          c.map (fun r => jsTemplate (_getKey (some r))) := by
      intro c
      induction c with
      | nil => rfl
      | cons x t ih =>
        obtain ⟨s, hs⟩ : ∃ s, _getKey (some x) = some s := by
          cases x <;> exact ⟨_, rfl⟩
        rw [List.map_cons, List.map_cons, List.filterMap_cons, hs, ih]
        rfl
    have : ((chunkArray reqs 1000).map (fun c =>
        (c.map (fun r => _getKey (some r))).filterMap id)).flatten =
        ((chunkArray reqs 1000).map (fun c =>
          c.map (fun r => jsTemplate (_getKey (some r))))).flatten := by
      congr 1
      exact List.map_congr_left (fun c _ => hcomm c)
    rw [List.map_map]
    refine this.trans ?_
    rw [← List.map_flatten,
      chunkArray_join 1000 (by omega) reqs.length reqs (le_refl _)]
  refine ⟨((chunkArray reqs 1000).map
    (fun c => c.map (fun r => _getKey (some r)))).map
      (fun ks => Event.batchDelete b ks), ?_, ?_⟩
  · rw [deleteMany_trace_edge b cf bs reqs h, hres, List.map_map,
      List.map_map, List.map_map]
    simp [Function.comp]
  · intro e he
    rw [List.mem_map] at he
    obtain ⟨ks, _, rfl⟩ := he
    rfl

/-- Witness for `deleteMany_purge_urls` on a two-request list. -/
theorem deleteMany_purge_urls_witness :
    ([ReqInput.str "/a", ReqInput.str "/b"] ≠ ([] : List ReqInput)) ∧
    (∀ ks, bsTwo.s3delete ks = ks.filterMap id) ∧
    (∃ E, (deleteMany ⟨"bucket", some cfTest⟩ bsTwo
        [ReqInput.str "/a", ReqInput.str "/b"]).2 =
        E ++ [Event.purge cfTest.url (.files
          ((deleteMany ⟨"bucket", some cfTest⟩ bsTwo
            [ReqInput.str "/a", ReqInput.str "/b"]).1.map
              (fun k => cfTest.origin ++ k)))] ∧
      ∀ e ∈ E, e.isBatchDelete = true) :=
  ⟨by decide, fun ks => rfl, deleteMany_purge_urls "bucket" cfTest bsTwo
    [ReqInput.str "/a", ReqInput.str "/b"] (by decide) (fun ks => rfl)⟩

theorem orUndefined_eq_self (x : Option String) (hx : x ≠ some "") :
    orUndefined x = x := by
  cases x with
  | none => rfl
  | some s =>
    have : s ≠ "" := fun hc => hx (by rw [hc])
    simp [orUndefined, this]

/-- C4, counterexample: restricted to the six codec fields, the round trip
does not reproduce every header set — a header present with the empty string
as value is dropped entirely (here `content-type`), so the output differs
from the input on a covered field with no `Expires` normalization involved. -/
theorem roundtrip_empty_value_cex :
    ¬ (hget (parseHTTPMetadata dmTest
        (some (serializeHTTPMetadata dmTest [(.contentType, "")])))
        .contentType = hget [(HeaderName.contentType, "")] .contentType) := by
  decide

/-- C4, amended: for any header set restricted to the six codec fields whose
present values are non-empty, the round trip reproduces the five string
fields exactly and re-renders `Expires` as the UTC string of its parsed
date; fields absent from the input are absent from the result, and no other
header name is ever produced. -/
theorem codec_roundtrip (dm : DateModel) (h : Headersm)
    (hne : ∀ n, hget h n ≠ some "") :
    ∀ n : HeaderName,
      hget (parseHTTPMetadata dm (some (serializeHTTPMetadata dm h))) n =
        match n with
        | .cacheControl => hget h .cacheControl
        | .expires =>
          (hget h .expires).map (fun s => dm.toUTCString (dm.parse s))
        | .contentType => hget h .contentType
        | .contentDisposition => hget h .contentDisposition
        | .contentEncoding => hget h .contentEncoding
        | .contentLanguage => hget h .contentLanguage
        | _ => none := by
  obtain ⟨hcc, hex, hct, hcd, hce, hcl, hother⟩ :=
    hget_parseHTTPMetadata dm (serializeHTTPMetadata dm h)
  intro n
  cases n with
  | cacheControl =>
    rw [hcc]
    show orUndefined (orUndefined (hget h .cacheControl)) = _
    rw [orUndefined_eq_self _ (hne .cacheControl),
      orUndefined_eq_self _ (hne .cacheControl)]
  | expires =>
    rw [hex]
    show (match hget h .expires with
      | some s => if s = "" then none else some (dm.parse s)
      | none => none).map dm.toUTCString = _
    cases hx : hget h .expires with
    | none => rfl
    | some s =>
      have hs : s ≠ "" := fun hc => hne .expires (by rw [hx, hc])
      simp [hs]
  | contentType =>
    rw [hct]
    show orUndefined (orUndefined (hget h .contentType)) = _
    rw [orUndefined_eq_self _ (hne .contentType),
      orUndefined_eq_self _ (hne .contentType)]
  | contentDisposition =>
    rw [hcd]
    show orUndefined (orUndefined (hget h .contentDisposition)) = _
    rw [orUndefined_eq_self _ (hne .contentDisposition),
      orUndefined_eq_self _ (hne .contentDisposition)]
  | contentEncoding =>
    rw [hce]
    show orUndefined (orUndefined (hget h .contentEncoding)) = _
    rw [orUndefined_eq_self _ (hne .contentEncoding),
      orUndefined_eq_self _ (hne .contentEncoding)]
  | contentLanguage =>
    rw [hcl]
    show orUndefined (orUndefined (hget h .contentLanguage)) = _
    rw [orUndefined_eq_self _ (hne .contentLanguage),
      orUndefined_eq_self _ (hne .contentLanguage)]
  | etag =>
    exact hother .etag (by decide) (by decide) (by decide) (by decide)
      (by decide) (by decide)
  | contentLength =>
    exact hother .contentLength (by decide) (by decide) (by decide)
      (by decide) (by decide) (by decide)
  | lastModified =>
    exact hother .lastModified (by decide) (by decide) (by decide)
      (by decide) (by decide) (by decide)
  | cdnCacheControl =>
    exact hother .cdnCacheControl (by decide) (by decide) (by decide)
      (by decide) (by decide) (by decide)

/-- Witness for `codec_roundtrip` on a two-field header set. -/
theorem codec_roundtrip_witness :
    (∀ n, hget hRound n ≠ some "") ∧
    ∀ n : HeaderName,
      hget (parseHTTPMetadata dmTest
          (some (serializeHTTPMetadata dmTest hRound))) n =
        match n with
        | .cacheControl => hget hRound .cacheControl
        | .expires =>
          (hget hRound .expires).map
            (fun s => dmTest.toUTCString (dmTest.parse s))
        | .contentType => hget hRound .contentType
        | .contentDisposition => hget hRound .contentDisposition
        | .contentEncoding => hget hRound .contentEncoding
        | .contentLanguage => hget hRound .contentLanguage
        | _ => none :=
  ⟨by decide, codec_roundtrip dmTest hRound (by decide)⟩

/-- C10: a covered header present with the empty string as value serializes
to an omitted metadata field exactly as if it were absent, and consequently
the round trip drops it instead of reproducing it — shown for each of the
six codec fields. -/
theorem serialize_empty_header_dropped (dm : DateModel) (h : Headersm) :
    (hget h .cacheControl = some "" →
      (serializeHTTPMetadata dm h).cacheControl = none ∧
      hget (parseHTTPMetadata dm (some (serializeHTTPMetadata dm h)))
        .cacheControl = none) ∧
    (hget h .expires = some "" →
      (serializeHTTPMetadata dm h).cacheExpiry = none ∧
      hget (parseHTTPMetadata dm (some (serializeHTTPMetadata dm h)))
        .expires = none) ∧
    (hget h .contentType = some "" →
      (serializeHTTPMetadata dm h).contentType = none ∧
      hget (parseHTTPMetadata dm (some (serializeHTTPMetadata dm h)))
        .contentType = none) ∧
    (hget h .contentDisposition = some "" →
      (serializeHTTPMetadata dm h).contentDisposition = none ∧
      hget (parseHTTPMetadata dm (some (serializeHTTPMetadata dm h)))
        .contentDisposition = none) ∧
    (hget h .contentEncoding = some "" →
      (serializeHTTPMetadata dm h).contentEncoding = none ∧
      hget (parseHTTPMetadata dm (some (serializeHTTPMetadata dm h)))
        .contentEncoding = none) ∧
    (hget h .contentLanguage = some "" →
      (serializeHTTPMetadata dm h).contentLanguage = none ∧
      hget (parseHTTPMetadata dm (some (serializeHTTPMetadata dm h)))
        .contentLanguage = none) := by
  obtain ⟨hcc, hex, hct, hcd, hce, hcl, _⟩ :=
    hget_parseHTTPMetadata dm (serializeHTTPMetadata dm h)
  refine ⟨?_, ?_, ?_, ?_, ?_, ?_⟩
  · intro hv
    have hf : (serializeHTTPMetadata dm h).cacheControl = none := by
      show orUndefined (hget h .cacheControl) = none
      rw [hv]
      rfl
    exact ⟨hf, by rw [hcc, hf]; rfl⟩
  · intro hv
    have hf : (serializeHTTPMetadata dm h).cacheExpiry = none := by
      show (match hget h .expires with
        | some s => if s = "" then none else some (dm.parse s)
        | none => none) = none
      rw [hv]
      rfl
    exact ⟨hf, by rw [hex, hf]; rfl⟩
  · intro hv
    have hf : (serializeHTTPMetadata dm h).contentType = none := by
      show orUndefined (hget h .contentType) = none
      rw [hv]
      rfl
    exact ⟨hf, by rw [hct, hf]; rfl⟩
  · intro hv
    have hf : (serializeHTTPMetadata dm h).contentDisposition = none := by
      show orUndefined (hget h .contentDisposition) = none
      rw [hv]
      rfl
    exact ⟨hf, by rw [hcd, hf]; rfl⟩
  · intro hv
    have hf : (serializeHTTPMetadata dm h).contentEncoding = none := by
      show orUndefined (hget h .contentEncoding) = none
      rw [hv]
      rfl
    exact ⟨hf, by rw [hce, hf]; rfl⟩
  · intro hv
    have hf : (serializeHTTPMetadata dm h).contentLanguage = none := by
      show orUndefined (hget h .contentLanguage) = none
      rw [hv]
      rfl
    exact ⟨hf, by rw [hcl, hf]; rfl⟩

/-- Witness for `serialize_empty_header_dropped` on headers whose six codec
fields are all present with empty values. -/
theorem serialize_empty_header_dropped_witness :
    hget hEmptyVals .cacheControl = some "" ∧
    hget hEmptyVals .expires = some "" ∧
    ((serializeHTTPMetadata dmTest hEmptyVals).cacheControl = none ∧
      hget (parseHTTPMetadata dmTest
        (some (serializeHTTPMetadata dmTest hEmptyVals))) .cacheControl
        = none) ∧
    ((serializeHTTPMetadata dmTest hEmptyVals).cacheExpiry = none ∧
      hget (parseHTTPMetadata dmTest
        (some (serializeHTTPMetadata dmTest hEmptyVals))) .expires = none) :=
  ⟨rfl, rfl,
    (serialize_empty_header_dropped dmTest hEmptyVals).1 rfl,
    (serialize_empty_header_dropped dmTest hEmptyVals).2.1 rfl⟩

/-- C5: storing any response via `put` and then `match`ing the same key
returns the stored status and status text — the `statusCode`/`statusText`
custom metadata overrides the 200/304 default, so a 404 "Not Found" comes
back as 404 "Not Found" and not as a hardcoded 200. -/
theorem put_match_status_fidelity (dm : DateModel) (cfg : CacheCfg)
    (st : R2State) (etag : String) (up : JSDate) (r : ReqInput)
    (resp : JSResponse) (k : String) (hk : _getKey (some r) = some k)
    (hne : k ≠ "") :
    ∃ o st', (cachePut dm cfg st etag up r resp).1 = .ok (o, st') ∧
      ∃ m, (cacheMatch dm cfg st' r).1 = .ok (some m) ∧
        m.status = resp.status ∧ m.statusText = resp.statusText := by
  have hfalsy : jsFalsyKey (some k) = false := by
    simp [jsFalsyKey, hne]
  refine ⟨{ body := some (resp.body.getD [])
            size := (resp.body.getD []).length
            httpEtag := etag
            uploaded := up
            httpMetadata := some (serializeHTTPMetadata dm resp.headers)
            customMetadata := some
              { statusCode := some (jsToString resp.status)
                statusText := some resp.statusText } },
    (k, { body := some (resp.body.getD [])
          size := (resp.body.getD []).length
          httpEtag := etag
          uploaded := up
          httpMetadata := some (serializeHTTPMetadata dm resp.headers)
          customMetadata := some
            { statusCode := some (jsToString resp.status)
              statusText := some resp.statusText } }) :: st, ?_, ?_⟩
  · unfold cachePut
    rw [hk]
    dsimp only
    rw [hfalsy]
    simp only [Bool.false_eq_true, if_false]
    rfl
  · unfold cacheMatch
    rw [hk]
    dsimp only
    rw [hfalsy]
    simp only [Bool.false_eq_true, if_false]
    have hget1 : r2getState ((k,
        { body := some (resp.body.getD [])
          size := (resp.body.getD []).length
          httpEtag := etag
          uploaded := up
          httpMetadata := some (serializeHTTPMetadata dm resp.headers)
          customMetadata := some
            { statusCode := some (jsToString resp.status)
              statusText := some resp.statusText } } ) :: st) k =
        some
        { body := some (resp.body.getD [])
          size := (resp.body.getD []).length
          httpEtag := etag
          uploaded := up
          httpMetadata := some (serializeHTTPMetadata dm resp.headers)
          customMetadata := some
            { statusCode := some (jsToString resp.status)
              statusText := some resp.statusText } } := by
      unfold r2getState
      rw [List.find?_cons_of_pos _ (by simp)]
      rfl
    rw [hget1]
    refine ⟨_, rfl, ?_, ?_⟩
    · show (if jsToString resp.status = "" then
        (if (some (resp.body.getD [])).isSome then (200 : Nat) else 304)
        else jsParseInt (jsToString resp.status)) = resp.status
      rw [if_neg (jsToString_ne_empty resp.status)]
      exact jsParseInt_jsToString resp.status
    · show (if resp.statusText = "" then "" else resp.statusText)
        = resp.statusText
      by_cases hst : resp.statusText = ""
      · rw [if_pos hst, hst]
      · rw [if_neg hst]

/-- Witness for `put_match_status_fidelity`: a 404 "Not Found" response
stored at `/blog/post-1` and matched back. -/
theorem put_match_status_fidelity_witness :
    _getKey (some (ReqInput.str "/blog/post-1")) = some "/blog/post-1" ∧
    "/blog/post-1" ≠ "" ∧
    (∃ o st', (cachePut dmTest cfgEdge [] "etag1" ⟨some 0⟩
        (ReqInput.str "/blog/post-1") resp404).1 = .ok (o, st') ∧
      ∃ m, (cacheMatch dmTest cfgEdge st'
          (ReqInput.str "/blog/post-1")).1 = .ok (some m) ∧
        m.status = resp404.status ∧ m.statusText = resp404.statusText) :=
  ⟨rfl, by decide, put_match_status_fidelity dmTest cfgEdge [] "etag1"
    ⟨some 0⟩ (ReqInput.str "/blog/post-1") resp404 "/blog/post-1" rfl
    (by decide)⟩

/-- C7: on a hit, the response headers equal the deserialized stored
metadata plus exactly four computed fields — the store fingerprint as
`ETag`, the stored size as `Content-Length`, the stored upload timestamp as
`Last-Modified`, and `CDN-Cache-Control: public, max-age=31536000`, which
is set on every hit regardless of the stored caching directives. -/
theorem match_headers_computed (dm : DateModel) (cfg : CacheCfg)
    (st : R2State) (r : ReqInput) (k : String) (o : StoredObj)
    (hk : _getKey (some r) = some k) (hne : k ≠ "")
    (hobj : r2getState st k = some o) :
    ∃ m, cacheMatch dm cfg st r = (.ok (some m), [.r2get k]) ∧
      hget m.headers .cdnCacheControl = some "public, max-age=31536000" ∧
      hget m.headers .etag = some o.httpEtag ∧
      hget m.headers .contentLength = some (jsToString o.size) ∧
      hget m.headers .lastModified = some (dm.toUTCString o.uploaded) ∧
      ∀ n : HeaderName, n ≠ .etag → n ≠ .contentLength →
        n ≠ .lastModified → n ≠ .cdnCacheControl →
        hget m.headers n = hget (parseHTTPMetadata dm o.httpMetadata) n := by
  have hfalsy : jsFalsyKey (some k) = false := by
    simp [jsFalsyKey, hne]
  unfold cacheMatch
  rw [hk]
  dsimp only
  rw [hfalsy]
  simp only [Bool.false_eq_true, if_false, hobj]
  refine ⟨_, rfl, ?_, ?_, ?_, ?_, ?_⟩
  · rw [hget_hset_self]
    have : "public, max-age=" ++ jsToString (60 * 60 * 24 * 365) =
        "public, max-age=31536000" := by decide
    rw [this]
  · rw [hget_hset_ne _ _ _ _ (by decide), hget_hset_ne _ _ _ _ (by decide),
      hget_hset_ne _ _ _ _ (by decide), hget_hset_self]
  · rw [hget_hset_ne _ _ _ _ (by decide), hget_hset_ne _ _ _ _ (by decide),
      hget_hset_self]
  · rw [hget_hset_ne _ _ _ _ (by decide), hget_hset_self]
  · intro n h1 h2 h3 h4
    rw [hget_hset_ne _ _ _ _ h4, hget_hset_ne _ _ _ _ h3,
      hget_hset_ne _ _ _ _ h2, hget_hset_ne _ _ _ _ h1]

/-- Witness for `match_headers_computed` at a one-object store. -/
theorem match_headers_computed_witness :
    _getKey (some (ReqInput.str "/p")) = some "/p" ∧
    "/p" ≠ "" ∧
    r2getState stOne "/p" = some stObj ∧
    (∃ m, cacheMatch dmTest cfgEdge stOne (ReqInput.str "/p") =
        (.ok (some m), [.r2get "/p"]) ∧
      hget m.headers .cdnCacheControl = some "public, max-age=31536000" ∧
      hget m.headers .etag = some stObj.httpEtag ∧
      hget m.headers .contentLength = some (jsToString stObj.size) ∧
      hget m.headers .lastModified =
        some (dmTest.toUTCString stObj.uploaded) ∧
      ∀ n : HeaderName, n ≠ .etag → n ≠ .contentLength →
        n ≠ .lastModified → n ≠ .cdnCacheControl →
        hget m.headers n =
          hget (parseHTTPMetadata dmTest stObj.httpMetadata) n) :=
  ⟨rfl, by decide, rfl, match_headers_computed dmTest cfgEdge stOne
    (ReqInput.str "/p") "/p" stObj rfl (by decide) rfl⟩

/-- C9: without an edge config every purge step is a no-op — no purge event
ever appears, and the trace is exactly the configured-case trace with its
purge events removed — while the origin-store effects and return values of
`match`, `put`, `delete`, `deleteMany`, `deleteAll` and `keys` are identical
to the configured case. -/
theorem no_edge_config_frame (dm : DateModel) (b : String) (cf : CFCacheCfg)
    (bs : BulkStore) (st : R2State) (etag : String) (up : JSDate)
    (r : ReqInput) (resp : JSResponse) (oreq : Option ReqInput)
    (reqs : List ReqInput) :
    cacheMatch dm ⟨b, none⟩ st r = cacheMatch dm ⟨b, some cf⟩ st r ∧
    cachePut dm ⟨b, none⟩ st etag up r resp =
      cachePut dm ⟨b, some cf⟩ st etag up r resp ∧
    cacheKeys ⟨b, none⟩ bs oreq = cacheKeys ⟨b, some cf⟩ bs oreq ∧
    (deleteMany ⟨b, none⟩ bs reqs).1 = (deleteMany ⟨b, some cf⟩ bs reqs).1 ∧
    (deleteMany ⟨b, none⟩ bs reqs).2 =
      (deleteMany ⟨b, some cf⟩ bs reqs).2.filter (fun e => ! e.isPurge) ∧
    (∀ e ∈ (deleteMany ⟨b, none⟩ bs reqs).2, e.isPurge = false) ∧
    (cacheDelete ⟨b, none⟩ bs r).1 = (cacheDelete ⟨b, some cf⟩ bs r).1 ∧
    (deleteAll ⟨b, none⟩ bs).1 = (deleteAll ⟨b, some cf⟩ bs).1 ∧
    (deleteAll ⟨b, none⟩ bs).2 =
      (deleteAll ⟨b, some cf⟩ bs).2.filter (fun e => ! e.isPurge) ∧
    (∀ e ∈ (deleteAll ⟨b, none⟩ bs).2, e.isPurge = false) := by
  have hbatchNotPurge : ∀ (l : List (List (Option String))),
      ∀ e ∈ l.map (fun ks => Event.batchDelete b ks), (! e.isPurge) = true := by
    intro l e he
    rw [List.mem_map] at he
    obtain ⟨ks, _, rfl⟩ := he
    rfl
  have hdm : ∀ hreq : ¬ reqs.isEmpty = true,
      (deleteMany (⟨b, none⟩ : CacheCfg) bs reqs).2 =
        (deleteMany (⟨b, some cf⟩ : CacheCfg) bs reqs).2.filter
          (fun e => ! e.isPurge) := by
    intro hreq
    unfold deleteMany
    rw [if_neg hreq, if_neg hreq]
    dsimp only
    rw [List.filter_append, List.filter_eq_self.mpr (hbatchNotPurge _)]
    simp [Event.isPurge]
  have hda : (deleteAll (⟨b, none⟩ : CacheCfg) bs).2 =
      (deleteAll (⟨b, some cf⟩ : CacheCfg) bs).2.filter
        (fun e => ! e.isPurge) := by
    unfold deleteAll
    by_cases hks : (cacheKeys ⟨b, none⟩ bs none).1.isEmpty
    · rw [if_pos hks]
      rw [show (cacheKeys (⟨b, none⟩ : CacheCfg) bs none).1
          = (cacheKeys (⟨b, some cf⟩ : CacheCfg) bs none).1 from rfl] at hks
      rw [if_pos hks]
      simp [cacheKeys, Event.isPurge]
    · rw [if_neg hks]
      rw [show (cacheKeys (⟨b, none⟩ : CacheCfg) bs none).1
          = (cacheKeys (⟨b, some cf⟩ : CacheCfg) bs none).1 from rfl] at hks
      rw [if_neg hks]
      dsimp only
      rw [List.filter_append, List.filter_append,
        List.filter_eq_self.mpr (hbatchNotPurge _)]
      have h1 : (cacheKeys (⟨b, some cf⟩ : CacheCfg) bs none).2.filter
          (fun e => ! e.isPurge) =
          (cacheKeys (⟨b, some cf⟩ : CacheCfg) bs none).2 := by
        simp [cacheKeys, Event.isPurge]
      rw [h1]
      have h2 : List.filter (fun e => ! e.isPurge)
          [Event.purge cf.url PurgeBody.everything] = [] := by
        simp [Event.isPurge]
      rw [h2, List.append_nil]
      rfl
  refine ⟨rfl, rfl, rfl, ?_, ?_, ?_, ?_, ?_, hda, ?_⟩
  · unfold deleteMany
    by_cases hreq : reqs.isEmpty
    · rw [if_pos hreq, if_pos hreq]
    · rw [if_neg hreq, if_neg hreq]
  · by_cases hreq : reqs.isEmpty
    · unfold deleteMany
      rw [if_pos hreq, if_pos hreq]
      rfl
    · exact hdm hreq
  · intro e he
    by_cases hreq : reqs.isEmpty
    · unfold deleteMany at he
      rw [if_pos hreq] at he
      simp at he
    · rw [hdm hreq] at he
      rw [List.mem_filter] at he
      have := he.2
      cases hp : e.isPurge
      · rfl
      · rw [hp] at this
        simp at this
  · show (deleteMany (⟨b, none⟩ : CacheCfg) bs [r]).1 =
      (deleteMany (⟨b, some cf⟩ : CacheCfg) bs [r]).1
    unfold deleteMany
    rfl
  · unfold deleteAll
    by_cases hks : (cacheKeys ⟨b, none⟩ bs none).1.isEmpty
    · rw [if_pos hks]
      rw [show (cacheKeys (⟨b, none⟩ : CacheCfg) bs none).1
          = (cacheKeys (⟨b, some cf⟩ : CacheCfg) bs none).1 from rfl] at hks
      rw [if_pos hks]
    · rw [if_neg hks]
      rw [show (cacheKeys (⟨b, none⟩ : CacheCfg) bs none).1
          = (cacheKeys (⟨b, some cf⟩ : CacheCfg) bs none).1 from rfl] at hks
      rw [if_neg hks]
      rfl
  · intro e he
    rw [hda] at he
    rw [List.mem_filter] at he
    have := he.2
    cases hp : e.isPurge
    · rfl
    · rw [hp] at this
      simp at this

end CFCache

